import Mathlib

/-!
Shallow embedding of the trading-system repository (calendar resolver,
execution-bar locator, Christmas-ladder order generator, execution
simulator, backtest engine) and proofs of the specification claims.

Python floats are modelled as `ℚ` (all arithmetic in the relevant code is
exact on the values the claims quantify over), Python ints as `ℤ`/`ℕ`,
pandas DataFrames as Lean lists of typed rows, dicts with heterogeneous
presence of keys as association lists, and raising code as `Except`.
-/

namespace Trading

/-- Order side, the `"BUY"` / `"SELL"` strings of the source. -/
inductive Side where
  | BUY
  | SELL
deriving DecidableEq, Repr

/-- A pandas `Timestamp` at minute granularity: calendar fields plus the
minute-of-day (`09:30` is minute 570).  Chronological order is compared
through `key`. -/
structure Timestamp where
  year : Nat
  month : Nat
  day : Nat
  minute : Nat
deriving DecidableEq, Repr

/-- Injection of a timestamp into `ℕ` that is order-isomorphic to
chronological order on well-formed timestamps (month ≤ 12 < 13,
day ≤ 31 < 32, minute < 1440). -/
def Timestamp.key (t : Timestamp) : Nat :=
  ((t.year * 13 + t.month) * 32 + t.day) * 1440 + t.minute

/-- The `.date()` component of a timestamp, as a number (order-isomorphic
to calendar-date order for well-formed dates). -/
def Timestamp.dateKey (t : Timestamp) : Nat :=
  (t.year * 13 + t.month) * 32 + t.day

/-- `pd.to_datetime(index.date)`: the timestamp normalized to midnight. -/
def Timestamp.normalizeDate (t : Timestamp) : Timestamp :=
  ⟨t.year, t.month, t.day, 0⟩

/-- One OHLCV row of a market-data DataFrame, keyed by its index
timestamp.  Field names follow the DataFrame columns. -/
structure Bar where
  time : Timestamp
  Open : ℚ
  High : ℚ
  Low : ℚ
  Close : ℚ
  Volume : ℚ
deriving DecidableEq, Repr

/-- One row of an intended-orders DataFrame:
`['time', 'side', 'qty', 'price', 'value']`. -/
structure Order where
  time : Timestamp
  side : Side
  qty : ℤ
  price : ℚ
  value : ℚ
deriving DecidableEq, Repr

/-- One row of the executed-orders DataFrame produced by
`execute_orders` (the intended-order columns plus `original_time` and
realized `slippage_bps`). -/
structure ExecOrder where
  time : Timestamp
  side : Side
  qty : ℤ
  price : ℚ
  value : ℚ
  original_time : Timestamp
  slippage_bps : ℚ
deriving DecidableEq, Repr

/-- Insert into a list keeping it sorted by an `ℕ`-valued key
(helper for `sortByKey`). -/
def insertLe {α : Type} (key : α → Nat) (a : α) : List α → List α
  | [] => [a]
  | b :: l => if key a ≤ key b then a :: b :: l else b :: insertLe key a l

/-- Insertion sort by an `ℕ`-valued key; embeds `sorted(...)` and
`DataFrame.sort_values`. -/
def sortByKey {α : Type} (key : α → Nat) : List α → List α
  | [] => []
  | a :: l => insertLe key a (sortByKey key l)

/-! ## Backtest engine (`trading/backtest/engine.py`) -/

/-- The dictionary returned by `run_backtest`: the `"orders"` entry (the
executed-orders table) plus the numeric entries, kept as an association
list so that which keys are present is part of the model. -/
structure BacktestResult where
  orders : List Order
  fields : List (String × ℚ)
deriving DecidableEq, Repr

/-- `run_backtest(orders, initial_cash)` of `trading/backtest/engine.py`.
The empty-input branch returns its own literal dict (note: it has no
`"total_value"` entry, exactly as in the source). -/
def run_backtest (orders : List Order) (initial_cash : ℚ) : BacktestResult :=
  if orders.isEmpty then
    { orders := orders
      fields := [("initial_cash", initial_cash), ("ending_cash", initial_cash),
                 ("remaining_shares", 0), ("remaining_value_mark", 0),
                 ("pnl", 0), ("return_pct", 0)] }
  else
    let cash_flow := (orders.map (·.value)).sum
    let ending_cash := initial_cash + cash_flow
    let bought : ℤ :=
      if orders.any (fun o => o.side == Side.BUY) then
        ((orders.filter (fun o => o.side == Side.BUY)).map (·.qty)).sum
      else 0
    let sold : ℤ :=
      if orders.any (fun o => o.side == Side.SELL) then
        ((orders.filter (fun o => o.side == Side.SELL)).map (·.qty)).sum
      else 0
    let remaining_shares : ℤ := bought - sold
    let remaining_value_mark : ℚ :=
      if 0 < remaining_shares ∧ ¬ orders.isEmpty then
        (remaining_shares : ℚ) * (match orders.getLast? with
          | some o => o.price
          | none => 0)
      else 0
    let total_value := ending_cash + remaining_value_mark
    let pnl := total_value - initial_cash
    let return_pct := if 0 < initial_cash then pnl / initial_cash else 0
    { orders := orders
      fields := [("initial_cash", initial_cash), ("ending_cash", ending_cash),
                 ("remaining_shares", (remaining_shares : ℚ)),
                 ("remaining_value_mark", remaining_value_mark),
                 ("total_value", total_value), ("pnl", pnl),
                 ("return_pct", return_pct)] }

/-! ## Calendar resolver (`trading/utils/calendar.py`) -/

/-- Python slice `l[-n:]` for a non-negative `n`: for `n = 0` this is the
whole list (`l[-0:] = l[0:] = l`), otherwise the last `n` elements. -/
def pySliceLast {α : Type} (l : List α) (n : Nat) : List α :=
  if n = 0 then l else l.drop (l.length - n)

/-- `_pick_last_n(dates, n)`: `dates[-n:] if len(dates) >= n else dates`. -/
def pick_last_n (dates : List Timestamp) (n : Nat) : List Timestamp :=
  if n ≤ dates.length then pySliceLast dates n else dates

/-- `_pick_first_n(dates, n)`: `dates[:n] if len(dates) >= n else dates`. -/
def pick_first_n (dates : List Timestamp) (n : Nat) : List Timestamp :=
  if n ≤ dates.length then dates.take n else dates

/-- `get_trading_days_around_date(df, anchor_date, before_days, after_days)`
of `trading/utils/calendar.py`.  The `DatetimeIndex` type check is
inherent in the embedding; the `ValueError` for an absent year is the
`Except.error` branch.  `dates` is the sorted unique list of the year's
calendar dates (collapsed to midnight). -/
def get_trading_days_around_date (df : List Bar) (anchor_date : Timestamp)
    (before_days after_days : Nat) :
    Except String (List Timestamp × List Timestamp) :=
  let dfy := df.filter (fun b => b.time.year == anchor_date.year)
  if dfy.isEmpty then .error "No data for year"
  else
    let dates := (sortByKey Timestamp.key (dfy.map (fun b => b.time.normalizeDate))).dedup
    let pre := dates.filter (fun d => decide (d.key < anchor_date.key))
    let post := dates.filter (fun d => decide (anchor_date.key < d.key))
    .ok (pick_last_n pre before_days, pick_first_n post after_days)

/-! ## Execution-bar locator (`trading/execution/timing.py`) -/

/-- The timestamp `pd.Timestamp(f"{target_date.date()} {time_str}")`:
the target date at the given minute-of-day. -/
def mkDayTime (target : Timestamp) (todMin : Nat) : Timestamp :=
  ⟨target.year, target.month, target.day, todMin⟩

/-- `df[df.index.date == target_date.date()]`: the bars of one calendar
day, in index order (the filter recurring in `timing.py` and
`christmas_ladder.py`). -/
def dayBars (df : List Bar) (target_date : Timestamp) : List Bar :=
  df.filter (fun b => b.time.dateKey == target_date.dateKey)

/-- `find_execution_bar(df, target_date, time_str)` of
`trading/execution/timing.py`; `time_str` is embedded as a
minute-of-day.  Raising `RuntimeError` is the `Except.error` branch. -/
def find_execution_bar (df : List Bar) (target_date : Timestamp)
    (todMin : Nat) : Except String Timestamp :=
  let same_day := dayBars df target_date
  match same_day.head? with
  | none => .error "No bars on date"
  | some b0 =>
    if same_day.length = 1 then .ok b0.time
    else
      let target_time := mkDayTime target_date todMin
      match (same_day.filter (fun b => decide (target_time.key ≤ b.time.key))).head? with
      | some b => .ok b.time
      | none => .ok (same_day.getLastD b0).time

/-- `is_market_hours(timestamp, market_open, market_close)` of
`trading/execution/timing.py`.  The source compares the zero-padded
strings `strftime("%H:%M")`; on minute-of-day values below 1440 that
lexicographic comparison coincides with comparing minutes, with
`"09:30" = 570` and `"16:00" = 960`. -/
def is_market_hours (t : Timestamp) (openMin : Nat := 570)
    (closeMin : Nat := 960) : Bool :=
  openMin ≤ t.minute && t.minute ≤ closeMin

/-! ## Execution simulator (`trading/execution/simulator.py`) -/

/-- `validate_order_timing(order, market_data)`: the order's calendar date
must appear among the market dates and its clock time must pass
`is_market_hours`. -/
def validate_order_timing (o : Order) (market_data : List Bar) : Bool :=
  market_data.any (fun b => b.time.dateKey == o.time.dateKey)
    && is_market_hours o.time

/-- `_apply_slippage(intended_price, market_bar, side, slippage_bps)`:
BUY pays up by the bps multiplier, capped at the bar's High; SELL
receives less, floored at the bar's Low. -/
def apply_slippage (intended_price : ℚ) (market_bar : Bar) (side : Side)
    (slippage_bps : ℚ) : ℚ :=
  let slippage_multiplier := slippage_bps / 10000
  match side with
  | Side.BUY => min (intended_price * (1 + slippage_multiplier)) market_bar.High
  | Side.SELL => max (intended_price * (1 - slippage_multiplier)) market_bar.Low

/-- `_check_liquidity(order_qty, bar_volume, max_volume_pct=0.01)`. -/
def check_liquidity (order_qty : ℤ) (bar_volume : ℚ)
    (max_volume_pct : ℚ := 1 / 100) : Bool :=
  if bar_volume ≤ 0 then false
  else decide ((order_qty : ℚ) / bar_volume ≤ max_volume_pct)

/-- `_calculate_slippage_bps(intended_price, execution_price)`. -/
def calculate_slippage_bps (intended_price execution_price : ℚ) : ℚ :=
  if intended_price = 0 then 0
  else (execution_price - intended_price) / intended_price * 10000

/-- The body of the per-order loop of `execute_orders`: `none` models
every way a single order is dropped (failed timing validation, a
`RuntimeError`/`KeyError` caught by the `except` clause, or a failed
liquidity check). -/
def processOrder (market_data : List Bar) (slippage_bps : ℚ)
    (min_liquidity_check : Bool) (o : Order) : Option ExecOrder :=
  if ¬ validate_order_timing o market_data then none
  else
    match find_execution_bar market_data o.time 570 with
    | .error _ => none
    | .ok execution_time =>
      match market_data.find? (fun b => b.time == execution_time) with
      | none => none
      | some market_bar =>
        let execution_price :=
          apply_slippage o.price market_bar o.side slippage_bps
        if min_liquidity_check && ¬ check_liquidity o.qty market_bar.Volume then
          none
        else
          some { time := execution_time
                 side := o.side
                 qty := o.qty
                 price := execution_price
                 value := if o.side = Side.BUY
                          then -((o.qty : ℚ) * execution_price)
                          else (o.qty : ℚ) * execution_price
                 original_time := o.time
                 slippage_bps := calculate_slippage_bps o.price execution_price }

/-- `execute_orders(orders, market_data, slippage_bps, min_liquidity_check)`
of `trading/execution/simulator.py`: each intended order is processed
independently; dropped orders vanish; the survivors are sorted by
execution time.  (Both the empty-input and the all-dropped branches of
the source are the empty list here.) -/
def execute_orders (orders : List Order) (market_data : List Bar)
    (slippage_bps : ℚ := 1) (min_liquidity_check : Bool := true) :
    List ExecOrder :=
  sortByKey (fun e => e.time.key)
    (orders.filterMap (processOrder market_data slippage_bps min_liquidity_check))

/-! ## Christmas-ladder strategy (`trading/strategies/christmas_ladder.py`) -/

/-- `XmasParams`; `sell_execution_time = "10:30"` is minute-of-day 630. -/
structure XmasParams where
  year : Nat
  symbol : String
  buy_days : Nat := 5
  sell_days : Nat := 10
  sell_minute : Nat := 630
deriving DecidableEq, Repr

/-- The buy loop of `generate_orders`: for each buy date take the day's
last bar, price at its Close, buy `int(alloc // px)` shares if positive.
`IndexError`/`KeyError`/`ZeroDivisionError` (uncaught in the source)
are `Except.error`.  Returns the final `(cash, position, orders)`. -/
def buyLoop (df : List Bar) (alloc : ℚ) :
    List Timestamp → ℚ → ℤ → List Order →
    Except String (ℚ × ℤ × List Order)
  | [], cash, position, acc => .ok (cash, position, acc)
  | d :: ds, cash, position, acc =>
    let bars := dayBars df d
    match bars.getLast? with
    | none => .error "IndexError"
    | some lastBar =>
      let ts := lastBar.time
      match df.find? (fun b => b.time == ts) with
      | none => .error "KeyError"
      | some bar =>
        let px := bar.Close
        if px = 0 then .error "ZeroDivisionError"
        else
          let qty : ℤ := ⌊alloc / px⌋
          if qty ≤ 0 then buyLoop df alloc ds cash position acc
          else
            buyLoop df alloc ds (cash - (qty : ℚ) * px) (position + qty)
              (acc ++ [{ time := ts, side := Side.BUY, qty := qty,
                         price := px, value := -((qty : ℚ) * px) }])

/-- Outcome of one iteration of the sell loop: break on a non-positive
position, skip a date whose computed quantity is ≤ 0, or execute a sell
(carrying the new cash and position). -/
inductive SellStep where
  | brk
  | skip
  | exec (o : Order) (cash : ℚ) (position : ℤ)
deriving DecidableEq, Repr

/-- The sell quantity of one sell-loop iteration:
`position // (sell_days - i + 1) if i < sell_days else position`
(Python `//` on these non-negative operands is floor division). -/
def sellQty (sell_days i : Nat) (position : ℤ) : ℤ :=
  if i < sell_days then
    Int.fdiv position ((sell_days : ℤ) - (i : ℤ) + 1)
  else position

/-- One iteration of the sell loop of `generate_orders` at 1-based index
`i` over date `d`: quantity is `position // (sell_days - i + 1)` for
`i < sell_days` and the whole remaining position otherwise; the
execution bar is resolved at `sell_minute` and priced at its Close. -/
def sellStep (df : List Bar) (sell_days sell_minute : Nat) (i : Nat)
    (d : Timestamp) (cash : ℚ) (position : ℤ) : Except String SellStep :=
  if position ≤ 0 then .ok .brk
  else
    let sell_qty : ℤ := sellQty sell_days i position
    if sell_qty ≤ 0 then .ok .skip
    else
      match find_execution_bar df d sell_minute with
      | .error e => .error e
      | .ok ts =>
        match df.find? (fun b => b.time == ts) with
        | none => .error "KeyError"
        | some bar =>
          let px := bar.Close
          .ok (.exec { time := ts, side := Side.SELL, qty := sell_qty,
                       price := px, value := (sell_qty : ℚ) * px }
                (cash + (sell_qty : ℚ) * px) (position - sell_qty))

/-- The sell loop of `generate_orders`, iterating `sellStep` with the
1-based index threaded through. -/
def sellLoop (df : List Bar) (sell_days sell_minute : Nat) :
    Nat → List Timestamp → ℚ → ℤ → List Order →
    Except String (ℚ × ℤ × List Order)
  | _, [], cash, position, acc => .ok (cash, position, acc)
  | i, d :: ds, cash, position, acc =>
    match sellStep df sell_days sell_minute i d cash position with
    | .error e => .error e
    | .ok .brk => .ok (cash, position, acc)
    | .ok .skip => sellLoop df sell_days sell_minute (i + 1) ds cash position acc
    | .ok (.exec o cash1 position1) =>
      sellLoop df sell_days sell_minute (i + 1) ds cash1 position1 (acc ++ [o])

/-- `generate_orders(df, cash, p)` of
`trading/strategies/christmas_ladder.py`: resolve the trading days
around December 25, run the buy loop then the sell loop, and return the
orders sorted by time (the no-orders case is the empty list, matching
the empty schema-typed table of the source). -/
def generate_orders (df : List Bar) (cash : ℚ) (p : XmasParams) :
    Except String (List Order) :=
  let xmas : Timestamp := ⟨p.year, 12, 25, 0⟩
  match get_trading_days_around_date df xmas p.buy_days p.sell_days with
  | .error e => .error e
  | .ok (buy_dates, sell_dates) =>
    let alloc := cash / (max buy_dates.length 1 : ℚ)
    match buyLoop df alloc buy_dates cash 0 [] with
    | .error e => .error e
    | .ok (cash1, position1, orders1) =>
      match sellLoop df p.sell_days p.sell_minute 1 sell_dates cash1 position1 orders1 with
      | .error e => .error e
      | .ok (_, _, orders2) => .ok (sortByKey (fun o => o.time.key) orders2)

/-! ## Concrete instances used by the witnesses and counterexamples -/

/-- A single daily bar at midnight with all four prices equal. -/
def mkDailyBar (y m d : Nat) (px : ℚ) : Bar :=
  { time := ⟨y, m, d, 0⟩, Open := px, High := px, Low := px, Close := px,
    Volume := 1000 }

/-- A 2023 price series whose bars all lie in November (no December data). -/
def novDf : List Bar := [mkDailyBar 2023 11 27 10, mkDailyBar 2023 11 28 10]

/-- Christmas-ladder parameters for `novDf`-sized examples. -/
def smallParams : XmasParams :=
  { year := 2023, symbol := "TEST", buy_days := 2, sell_days := 2 }

/-- The two BUY orders `generate_orders` produces from `novDf` with
cash 100: the last two November days, 5 shares at 10 each. -/
def novBuy1 : Order :=
  { time := ⟨2023, 11, 27, 0⟩, side := Side.BUY, qty := 5, price := 10,
    value := -50 }

/-- Second November BUY order (see `novBuy1`). -/
def novBuy2 : Order :=
  { time := ⟨2023, 11, 28, 0⟩, side := Side.BUY, qty := 5, price := 10,
    value := -50 }

/-- Market data for December 20, 2023 with two intraday bars: the 09:30
bar has `High = 90`, the 16:00 bar closes at 100. -/
def decMarket : List Bar :=
  [ { time := ⟨2023, 12, 20, 570⟩, Open := 85, High := 90, Low := 80,
      Close := 85, Volume := 1000 },
    { time := ⟨2023, 12, 20, 960⟩, Open := 99, High := 101, Low := 99,
      Close := 100, Volume := 1000 } ]

/-- A single intended BUY order at 10:00 with intended price 100 —
above the `High = 90` of the 09:30 execution bar of `decMarket`. -/
def decOrders : List Order :=
  [ { time := ⟨2023, 12, 20, 600⟩, side := Side.BUY, qty := 1, price := 100,
      value := -100 } ]

/-- The executed order `execute_orders` produces for `decOrders` on
`decMarket` with zero slippage: filled at the 09:30 bar, price capped
at its High of 90 — 10 below the intended price. -/
def decExec : ExecOrder :=
  { time := ⟨2023, 12, 20, 570⟩, side := Side.BUY, qty := 1, price := 90,
    value := -90, original_time := ⟨2023, 12, 20, 600⟩,
    slippage_bps := -1000 }

/-- Intended orders stamped at midnight (as daily-bar strategies emit). -/
def midnightOrders : List Order :=
  [ { time := ⟨2023, 12, 20, 0⟩, side := Side.BUY, qty := 1, price := 85,
      value := -85 } ]

/-- A series with one daily bar on December 27, 2023. -/
def dec27Df : List Bar := [mkDailyBar 2023 12 27 10]

/-- The SELL order emitted by `sellStep` on `dec27Df` at index 2 of a
2-day sell schedule with position 7: the full remaining position. -/
def c7order : Order :=
  { time := ⟨2023, 12, 27, 0⟩, side := Side.SELL, qty := 7, price := 10,
    value := 70 }

/-- A 2023 series with two trading days before and two after Dec 25. -/
def ladderDf : List Bar :=
  [mkDailyBar 2023 12 20 10, mkDailyBar 2023 12 21 10,
   mkDailyBar 2023 12 26 10, mkDailyBar 2023 12 27 10]

/-- The first order of `ladderOrders` (a BUY on December 20). -/
def ladderFirst : Order :=
  { time := ⟨2023, 12, 20, 0⟩, side := Side.BUY, qty := 5, price := 10,
    value := -50 }

/-- The order list `generate_orders` produces from `ladderDf` with
cash 100 and `smallParams`. -/
def ladderOrders : List Order :=
  [ { time := ⟨2023, 12, 20, 0⟩, side := Side.BUY, qty := 5, price := 10,
      value := -50 },
    { time := ⟨2023, 12, 21, 0⟩, side := Side.BUY, qty := 5, price := 10,
      value := -50 },
    { time := ⟨2023, 12, 26, 0⟩, side := Side.SELL, qty := 5, price := 10,
      value := 50 },
    { time := ⟨2023, 12, 27, 0⟩, side := Side.SELL, qty := 5, price := 10,
      value := 50 } ]

/-! ## General helper lemmas -/

theorem mem_insertLe {α : Type} (key : α → Nat) (a x : α) (l : List α) :
    x ∈ insertLe key a l ↔ x = a ∨ x ∈ l := by
  induction l with
  | nil => simp [insertLe]
  | cons b t ih =>
    simp only [insertLe]
    split
    · simp
    · simp [ih]
      tauto

theorem mem_sortByKey {α : Type} (key : α → Nat) (x : α) (l : List α) :
    x ∈ sortByKey key l ↔ x ∈ l := by
  induction l with
  | nil => simp [sortByKey]
  | cons a t ih => simp [sortByKey, mem_insertLe, ih]

theorem pick_last_n_subset (l : List Timestamp) (n : Nat) :
    ∀ x ∈ pick_last_n l n, x ∈ l := by
  intro x hx
  unfold pick_last_n pySliceLast at hx
  split at hx
  · split at hx
    · exact hx
    · exact List.drop_subset _ l hx
  · exact hx

theorem pick_first_n_subset (l : List Timestamp) (n : Nat) :
    ∀ x ∈ pick_first_n l n, x ∈ l := by
  intro x hx
  unfold pick_first_n at hx
  split at hx
  · exact List.take_subset _ l hx
  · exact hx

theorem getLastD_mem {α : Type} (l : List α) (d : α) (h : l ≠ []) :
    l.getLastD d ∈ l := by
  induction l with
  | nil => exact absurd rfl h
  | cons a t ih =>
    cases t with
    | nil => simp [List.getLastD]
    | cons b u =>
      have hm := ih (by simp)
      rw [List.getLastD_cons]
      exact List.mem_cons_of_mem a hm

/-- Members of the date lists returned by the Calendar Resolver: every
pre-date is a midnight date of a year bar strictly before the anchor,
every post-date one strictly after. -/
theorem calendar_mem (df : List Bar) (a : Timestamp) (bn an : Nat)
    (pre post : List Timestamp)
    (h : get_trading_days_around_date df a bn an = Except.ok (pre, post)) :
    (∀ d ∈ pre, d.minute = 0 ∧ d.key < a.key ∧
      ∃ b ∈ df, b.time.year = a.year ∧ b.time.dateKey = d.dateKey) ∧
    (∀ d ∈ post, d.minute = 0 ∧ a.key < d.key ∧
      ∃ b ∈ df, b.time.year = a.year ∧ b.time.dateKey = d.dateKey) := by
  simp only [get_trading_days_around_date] at h
  split at h
  · exact absurd h (by simp)
  · simp only [Except.ok.injEq, Prod.mk.injEq] at h
    obtain ⟨hpre, hpost⟩ := h
    have hdates : ∀ d ∈ ((sortByKey Timestamp.key
        ((df.filter (fun b => b.time.year == a.year)).map
          (fun b => b.time.normalizeDate))).dedup),
        d.minute = 0 ∧ ∃ b ∈ df, b.time.year = a.year ∧ b.time.dateKey = d.dateKey := by
      intro d hd
      rw [List.mem_dedup, mem_sortByKey, List.mem_map] at hd
      obtain ⟨b, hb, rfl⟩ := hd
      rw [List.mem_filter] at hb
      refine ⟨rfl, b, hb.1, by simpa using hb.2, rfl⟩
    constructor
    · intro d hd
      rw [← hpre] at hd
      have hmem := pick_last_n_subset _ _ d hd
      rw [List.mem_filter] at hmem
      obtain ⟨hmem, hlt⟩ := hmem
      have := hdates d hmem
      exact ⟨this.1, by simpa using hlt, this.2⟩
    · intro d hd
      rw [← hpost] at hd
      have hmem := pick_first_n_subset _ _ d hd
      rw [List.mem_filter] at hmem
      obtain ⟨hmem, hlt⟩ := hmem
      have := hdates d hmem
      exact ⟨this.1, by simpa using hlt, this.2⟩

/-- A successful execution-bar lookup returns the timestamp of one of the
target date's bars. -/
theorem find_execution_bar_ok_mem (df : List Bar) (t : Timestamp)
    (m : Nat) (ts : Timestamp)
    (h : find_execution_bar df t m = Except.ok ts) :
    ∃ b ∈ dayBars df t, b.time = ts := by
  simp only [find_execution_bar] at h
  split at h
  · exact absurd h (by simp)
  · rename_i hopt b0 hb0eq
    have hb0 : b0 ∈ dayBars df t := List.mem_of_mem_head? (by rw [hb0eq]; rfl)
    have hne : dayBars df t ≠ [] := by
      intro hnil; rw [hnil] at hb0eq; simp at hb0eq
    split at h
    · simp only [Except.ok.injEq] at h
      exact ⟨b0, hb0, h⟩
    · split at h
      · rename_i b hfind
        simp only [Except.ok.injEq] at h
        have hbf : b ∈ (dayBars df t).filter
            (fun b => decide ((mkDayTime t m).key ≤ b.time.key)) :=
          List.mem_of_mem_head? (by rw [hfind]; rfl)
        exact ⟨b, List.mem_of_mem_filter hbf, h⟩
      · simp only [Except.ok.injEq] at h
        exact ⟨_, getLastD_mem (dayBars df t) b0 hne, h⟩

/-- Bars of `dayBars` carry the target's date. -/
theorem dayBars_dateKey (df : List Bar) (t : Timestamp) (b : Bar)
    (h : b ∈ dayBars df t) : b.time.dateKey = t.dateKey := by
  unfold dayBars at h
  rw [List.mem_filter] at h
  simpa using h.2

theorem getLast?_mem {α : Type} {l : List α} {a : α}
    (h : l.getLast? = some a) : a ∈ l := by
  have hne : l ≠ [] := by intro hn; rw [hn] at h; simp at h
  have hm := getLastD_mem l a hne
  rw [List.getLastD_eq_getLast?, h] at hm
  simpa using hm

/-- Every order the buy loop adds is a BUY stamped with a bar time of one
of its dates. -/
theorem buyLoop_ok_mem (df : List Bar) (alloc : ℚ) (ds : List Timestamp) :
    ∀ (cash : ℚ) (position : ℤ) (acc : List Order) (c1 : ℚ) (p1 : ℤ)
      (out : List Order),
      buyLoop df alloc ds cash position acc = Except.ok (c1, p1, out) →
      ∀ o ∈ out, o ∈ acc ∨
        (o.side = Side.BUY ∧
          ∃ d ∈ ds, ∃ b ∈ df, o.time = b.time ∧ b.time.dateKey = d.dateKey) := by
  induction ds with
  | nil =>
    intro cash position acc c1 p1 out h o ho
    simp only [buyLoop, Except.ok.injEq, Prod.mk.injEq] at h
    obtain ⟨-, -, rfl⟩ := h
    exact Or.inl ho
  | cons d ds ih =>
    intro cash position acc c1 p1 out h o ho
    simp only [buyLoop] at h
    split at h
    · exact absurd h (by simp)
    · rename_i lastBar hlast
      split at h
      · exact absurd h (by simp)
      · rename_i bar hfind
        split at h
        · exact absurd h (by simp)
        · split at h
          · rcases ih _ _ _ _ _ _ h o ho with hacc | ⟨hside, d', hd', hrest⟩
            · exact Or.inl hacc
            · exact Or.inr ⟨hside, d', List.mem_cons_of_mem d hd', hrest⟩
          · rcases ih _ _ _ _ _ _ h o ho with hacc | ⟨hside, d', hd', hrest⟩
            · rcases List.mem_append.mp hacc with hin | hnew
              · exact Or.inl hin
              · have hlb : lastBar ∈ dayBars df d := getLast?_mem hlast
                rw [List.mem_singleton] at hnew
                subst hnew
                exact Or.inr ⟨rfl, d, List.mem_cons_self d ds,
                  lastBar, List.mem_of_mem_filter hlb, rfl,
                  dayBars_dateKey df d lastBar hlb⟩
            · exact Or.inr ⟨hside, d', List.mem_cons_of_mem d hd', hrest⟩

/-- A successful sell step emits a SELL stamped with a bar time of its
date. -/
theorem sellStep_exec_shape (df : List Bar) (sd sm i : Nat) (d : Timestamp)
    (cash : ℚ) (position : ℤ) (o : Order) (c1 : ℚ) (p1 : ℤ)
    (h : sellStep df sd sm i d cash position = Except.ok (SellStep.exec o c1 p1)) :
    o.side = Side.SELL ∧ ∃ b ∈ df, o.time = b.time ∧ b.time.dateKey = d.dateKey := by
  simp only [sellStep] at h
  split at h
  · exact absurd h (by simp)
  · split at h
    · exact absurd h (by simp)
    · split at h
      · exact absurd h (by simp)
      · rename_i ts hts
        split at h
        · exact absurd h (by simp)
        · rename_i bar hbar
          simp only [Except.ok.injEq, SellStep.exec.injEq] at h
          obtain ⟨h1, -, -⟩ := h
          subst h1
          obtain ⟨b, hb, hbt⟩ := find_execution_bar_ok_mem df d sm ts hts
          exact ⟨rfl, b, List.mem_of_mem_filter hb, hbt.symm,
            dayBars_dateKey df d b hb⟩

/-- Every order the sell loop adds is a SELL stamped with a bar time of
one of its dates. -/
theorem sellLoop_ok_mem (df : List Bar) (sd sm : Nat) (ds : List Timestamp) :
    ∀ (i : Nat) (cash : ℚ) (position : ℤ) (acc : List Order) (c1 : ℚ)
      (p1 : ℤ) (out : List Order),
      sellLoop df sd sm i ds cash position acc = Except.ok (c1, p1, out) →
      ∀ o ∈ out, o ∈ acc ∨
        (o.side = Side.SELL ∧
          ∃ d ∈ ds, ∃ b ∈ df, o.time = b.time ∧ b.time.dateKey = d.dateKey) := by
  induction ds with
  | nil =>
    intro i cash position acc c1 p1 out h o ho
    simp only [sellLoop, Except.ok.injEq, Prod.mk.injEq] at h
    obtain ⟨-, -, rfl⟩ := h
    exact Or.inl ho
  | cons d ds ih =>
    intro i cash position acc c1 p1 out h o ho
    simp only [sellLoop] at h
    split at h
    · exact absurd h (by simp)
    · rename_i hbrk
      simp only [Except.ok.injEq, Prod.mk.injEq] at h
      obtain ⟨-, -, rfl⟩ := h
      exact Or.inl ho
    · rcases ih _ _ _ _ _ _ _ h o ho with hacc | ⟨hside, d', hd', hrest⟩
      · exact Or.inl hacc
      · exact Or.inr ⟨hside, d', List.mem_cons_of_mem d hd', hrest⟩
    · rename_i o1 c1' p1' hstep
      rcases ih _ _ _ _ _ _ _ h o ho with hacc | ⟨hside, d', hd', hrest⟩
      · rcases List.mem_append.mp hacc with hin | hnew
        · exact Or.inl hin
        · rw [List.mem_singleton] at hnew
          subst hnew
          obtain ⟨hside, b, hb, hbt, hbd⟩ :=
            sellStep_exec_shape df sd sm i d cash position o c1' p1' hstep
          exact Or.inr ⟨hside, d, List.mem_cons_self d ds, b, hb, hbt, hbd⟩
      · exact Or.inr ⟨hside, d', List.mem_cons_of_mem d hd', hrest⟩

/-! ## Concrete evaluation lemmas -/

theorem execute_orders_dec_eval :
    execute_orders decOrders decMarket 0 true = [decExec] := by
  norm_num [execute_orders, processOrder, validate_order_timing, is_market_hours,
    find_execution_bar, dayBars, mkDayTime, decOrders, decMarket, Timestamp.dateKey,
    Timestamp.key, apply_slippage, check_liquidity, calculate_slippage_bps,
    min_def, sortByKey, insertLe, decExec, List.filterMap_cons]

theorem sellStep_dec27_eval :
    sellStep dec27Df 2 630 2 ⟨2023, 12, 27, 0⟩ 0 7 =
      Except.ok (SellStep.exec c7order 70 0) := by
  norm_num [sellStep, sellQty, find_execution_bar, dayBars, mkDayTime, dec27Df,
    mkDailyBar, Timestamp.dateKey, Timestamp.key, c7order]

theorem generate_orders_nov_eval :
    generate_orders novDf 100 smallParams = Except.ok [novBuy1, novBuy2] := by
  norm_num [generate_orders, get_trading_days_around_date, novDf, smallParams,
    mkDailyBar, Timestamp.normalizeDate, sortByKey, insertLe, Timestamp.key,
    Timestamp.dateKey, pick_last_n, pick_first_n, pySliceLast, List.dedup,
    List.pwFilter, buyLoop, sellLoop, sellStep, sellQty, dayBars,
    find_execution_bar, mkDayTime, novBuy1, novBuy2]

theorem generate_orders_ladder_eval :
    generate_orders ladderDf 100 smallParams = Except.ok ladderOrders := by
  norm_num [generate_orders, get_trading_days_around_date, ladderDf, smallParams,
    mkDailyBar, Timestamp.normalizeDate, sortByKey, insertLe, Timestamp.key,
    Timestamp.dateKey, pick_last_n, pick_first_n, pySliceLast, List.dedup,
    List.pwFilter, buyLoop, sellLoop, sellStep, sellQty,
    (by decide : Int.fdiv (10 : ℤ) 2 = 5),
    dayBars, find_execution_bar, mkDayTime, ladderOrders]

/-! ## Claim theorems -/

/-- C1: for every non-empty executed-orders input and every initial cash
amount, `run_backtest` returns a result whose `ending_cash` equals
`initial_cash` plus the sum of the signed `value` fields of the input
orders. -/
theorem run_backtest_cash_flow_conservation (orders : List Order)
    (initial_cash : ℚ) (h : orders ≠ []) :
    (run_backtest orders initial_cash).fields.lookup "ending_cash"
      = some (initial_cash + (orders.map (·.value)).sum) := by
  have hne : orders.isEmpty = false := List.isEmpty_eq_false.mpr h
  simp [run_backtest, hne, List.lookup]

/-- C1 witness: the conservation law at the concrete one-order input. -/
theorem run_backtest_cash_flow_conservation_witness :
    (run_backtest decOrders 100).fields.lookup "ending_cash"
      = some (100 + (decOrders.map (·.value)).sum) :=
  run_backtest_cash_flow_conservation decOrders 100 (by decide)

/-- C5: for every `X ≥ 0`, `run_backtest` on empty orders returns (without
error) a result with `initial_cash = X`, `ending_cash = X`,
`remaining_shares = 0`, `pnl = 0` and `return_pct = 0`. -/
theorem run_backtest_zero_state (X : ℚ) (h : 0 ≤ X) :
    (run_backtest [] X).fields.lookup "initial_cash" = some X ∧
    (run_backtest [] X).fields.lookup "ending_cash" = some X ∧
    (run_backtest [] X).fields.lookup "remaining_shares" = some 0 ∧
    (run_backtest [] X).fields.lookup "pnl" = some 0 ∧
    (run_backtest [] X).fields.lookup "return_pct" = some 0 :=
  ⟨rfl, rfl, rfl, rfl, rfl⟩

/-- C5 witness: the zero state at `X = 0`. -/
theorem run_backtest_zero_state_witness :
    (run_backtest [] 0).fields.lookup "initial_cash" = some 0 ∧
    (run_backtest [] 0).fields.lookup "ending_cash" = some 0 ∧
    (run_backtest [] 0).fields.lookup "remaining_shares" = some 0 ∧
    (run_backtest [] 0).fields.lookup "pnl" = some 0 ∧
    (run_backtest [] 0).fields.lookup "return_pct" = some 0 :=
  run_backtest_zero_state 0 (le_refl 0)

/-- C6 counterexample: on empty input the result of `run_backtest` has no
`total_value` field at all (the empty-input branch of the source builds
a dict without that key), refuting the claim that all seven fields are
present for every input. -/
theorem run_backtest_empty_missing_total_value :
    ¬ ("total_value" ∈ (run_backtest [] 100).fields.map Prod.fst) := by
  decide

/-- C6 (amended): for every input the result of `run_backtest` contains
`initial_cash`, `ending_cash`, `remaining_shares`,
`remaining_value_mark`, `pnl` and `return_pct`; it additionally
contains `total_value` exactly when the input is non-empty. -/
theorem run_backtest_fields_present (orders : List Order) (c : ℚ) :
    ("initial_cash" ∈ (run_backtest orders c).fields.map Prod.fst ∧
     "ending_cash" ∈ (run_backtest orders c).fields.map Prod.fst ∧
     "remaining_shares" ∈ (run_backtest orders c).fields.map Prod.fst ∧
     "remaining_value_mark" ∈ (run_backtest orders c).fields.map Prod.fst ∧
     "pnl" ∈ (run_backtest orders c).fields.map Prod.fst ∧
     "return_pct" ∈ (run_backtest orders c).fields.map Prod.fst) ∧
    ("total_value" ∈ (run_backtest orders c).fields.map Prod.fst ↔ orders ≠ []) := by
  cases orders with
  | nil => simp [run_backtest]
  | cons o os => simp [run_backtest]

/-- C7: whenever the sell loop processes a date at 1-based index `i` equal
to `sell_days` (so it reached the last scheduled sell date without
breaking on a non-positive position) and the step executes, the
position immediately afterwards is exactly 0. -/
theorem sell_loop_full_liquidation (df : List Bar) (sd sm : Nat)
    (d : Timestamp) (cash : ℚ) (position : ℤ) (o : Order) (c1 : ℚ) (p1 : ℤ)
    (h : sellStep df sd sm sd d cash position = Except.ok (SellStep.exec o c1 p1)) :
    p1 = 0 := by
  simp only [sellStep, sellQty] at h
  rw [if_neg (lt_irrefl sd)] at h
  split at h
  · simp at h
  · rename_i hpos
    split at h
    · simp at h
    · split at h
      · simp at h
      · simp only [Except.ok.injEq, SellStep.exec.injEq] at h
        omega

/-- C7 witness: the full-liquidation step at a concrete input (position 7
on the last of 2 sell days is sold entirely, leaving position 0). -/
theorem sell_loop_full_liquidation_witness :
    sellStep dec27Df 2 630 2 ⟨2023, 12, 27, 0⟩ 0 7 =
      Except.ok (SellStep.exec c7order 70 0) ∧ (0 : ℤ) = 0 :=
  ⟨sellStep_dec27_eval,
   sell_loop_full_liquidation dec27Df 2 630 ⟨2023, 12, 27, 0⟩ 0 7 c7order 70 0
     sellStep_dec27_eval⟩

/-- C10: if every intended order is stamped at midnight (time-of-day
00:00, as produced from daily bars), `execute_orders` drops every order
and returns an empty output, because 00:00 fails the inclusive
09:30–16:00 session-hours check of the timing validation. -/
theorem execute_orders_midnight_dropped (orders : List Order)
    (market : List Bar) (s : ℚ) (liq : Bool)
    (h : ∀ o ∈ orders, o.time.minute = 0) :
    execute_orders orders market s liq = [] := by
  have hfm : orders.filterMap (processOrder market s liq) = [] := by
    rw [List.filterMap_eq_nil_iff]
    intro o ho
    simp [processOrder, validate_order_timing, is_market_hours, h o ho]
  rw [execute_orders, hfm]
  rfl

/-- C10 witness: a concrete midnight-stamped order list is dropped whole. -/
theorem execute_orders_midnight_dropped_witness :
    execute_orders midnightOrders decMarket 1 true = [] :=
  execute_orders_midnight_dropped midnightOrders decMarket 1 true (by decide)

/-- C2 counterexample: with non-negative slippage (0 bps) the executed BUY
of `decOrders` fills at 90 — the execution bar's High — strictly below
its intended price 100, refuting `intended_price ≤ execution_price`. -/
theorem execute_orders_fill_below_intended :
    execute_orders decOrders decMarket 0 true = [decExec] ∧
    decExec.side = Side.BUY ∧ decExec.price < 100 ∧
    decOrders.map (·.price) = [100] :=
  ⟨execute_orders_dec_eval, rfl, by norm_num [decExec], rfl⟩

/-- C3: evaluating the Calendar Resolver at `before_n = 0` — the code
returns all earlier dates of the year as `pre_dates` (Python
`dates[-0:]` is the whole list), not the empty list the claim and the
helper's own docstring ("select the last n dates") prescribe. -/
theorem pick_last_zero_returns_all_dates :
    get_trading_days_around_date novDf ⟨2023, 12, 25, 0⟩ 0 3 =
      Except.ok ([⟨2023, 11, 27, 0⟩, ⟨2023, 11, 28, 0⟩], []) ∧
    pick_last_n [⟨2023, 11, 27, 0⟩, ⟨2023, 11, 28, 0⟩] 0 =
      [⟨2023, 11, 27, 0⟩, ⟨2023, 11, 28, 0⟩] := by
  constructor
  · norm_num [get_trading_days_around_date, novDf, mkDailyBar,
      Timestamp.normalizeDate, sortByKey, insertLe, Timestamp.key,
      pick_last_n, pick_first_n, pySliceLast, List.dedup, List.pwFilter]
  · rfl

/-- C4 counterexample: a series covering only November of 2023 makes
`generate_orders` return a non-empty order table (two BUY orders on the
last two November days), refuting the claim that the result is empty. -/
theorem generate_orders_nov_data_nonempty :
    generate_orders novDf 100 smallParams = Except.ok [novBuy1, novBuy2] ∧
    ([novBuy1, novBuy2] : List Order) ≠ [] :=
  ⟨generate_orders_nov_eval, by decide⟩

/-- Bounds of the slippage model: a BUY fills within
`[min(intended, High), High]`, a SELL within `[Low, max(intended, Low)]`,
for non-negative slippage and a non-negative intended price. -/
theorem apply_slippage_bounds (p : ℚ) (bar : Bar) (side : Side) (s : ℚ)
    (hs : 0 ≤ s) (hp : 0 ≤ p) :
    (side = Side.BUY →
      min p bar.High ≤ apply_slippage p bar side s ∧
        apply_slippage p bar side s ≤ bar.High) ∧
    (side = Side.SELL →
      bar.Low ≤ apply_slippage p bar side s ∧
        apply_slippage p bar side s ≤ max p bar.Low) := by
  have hmul : (0 : ℚ) ≤ s / 10000 := div_nonneg hs (by norm_num)
  have h1 : (1 : ℚ) ≤ 1 + s / 10000 := by linarith
  have h2 : 1 - s / 10000 ≤ (1 : ℚ) := by linarith
  constructor
  · intro hside
    subst hside
    simp only [apply_slippage]
    exact ⟨min_le_min (le_mul_of_one_le_right hp h1) (le_refl _),
      min_le_right _ _⟩
  · intro hside
    subst hside
    simp only [apply_slippage]
    exact ⟨le_max_right _ _,
      max_le_max (mul_le_of_le_one_right hp h2) (le_refl _)⟩

/-- C2 (amended): for non-negative slippage and non-negative intended
prices, every order executed by `execute_orders` fills within
`[min(intended, High), High]` for a BUY and within
`[Low, max(intended, Low)]` for a SELL of its execution bar. -/
theorem execute_orders_slippage_bounded (orders : List Order)
    (market : List Bar) (s : ℚ) (liq : Bool) (hs : 0 ≤ s)
    (hp : ∀ o ∈ orders, 0 ≤ o.price) :
    ∀ e ∈ execute_orders orders market s liq,
      ∃ o ∈ orders, ∃ b ∈ market, b.time = e.time ∧ o.time = e.original_time ∧
        (e.side = Side.BUY → min o.price b.High ≤ e.price ∧ e.price ≤ b.High) ∧
        (e.side = Side.SELL → b.Low ≤ e.price ∧ e.price ≤ max o.price b.Low) := by
  intro e he
  rw [execute_orders, mem_sortByKey, List.mem_filterMap] at he
  obtain ⟨o, ho, hproc⟩ := he
  have hop := hp o ho
  simp only [processOrder] at hproc
  split at hproc
  · exact absurd hproc (by simp)
  · split at hproc
    · exact absurd hproc (by simp)
    · rename_i ts hts
      split at hproc
      · exact absurd hproc (by simp)
      · rename_i bar hfind
        split at hproc
        · exact absurd hproc (by simp)
        · simp only [Option.some.injEq] at hproc
          subst hproc
          have hbar_mem : bar ∈ market := List.mem_of_find?_eq_some hfind
          have hbar_time : bar.time = ts := by
            have := List.find?_some hfind
            simpa using this
          exact ⟨o, ho, bar, hbar_mem, hbar_time, rfl,
            (apply_slippage_bounds o.price bar o.side s hs hop).1,
            (apply_slippage_bounds o.price bar o.side s hs hop).2⟩

/-- C2 witness: the amended bound at the concrete one-order input, applied
to its executed order. -/
theorem execute_orders_slippage_bounded_witness :
    ∃ o ∈ decOrders, ∃ b ∈ decMarket, b.time = decExec.time ∧
      o.time = decExec.original_time ∧
      (decExec.side = Side.BUY →
        min o.price b.High ≤ decExec.price ∧ decExec.price ≤ b.High) ∧
      (decExec.side = Side.SELL →
        b.Low ≤ decExec.price ∧ decExec.price ≤ max o.price b.Low) :=
  execute_orders_slippage_bounded decOrders decMarket 0 true (le_refl 0)
    (by norm_num [decOrders]) decExec
    (by rw [execute_orders_dec_eval]; exact List.mem_singleton_self _)

/-- The buy loop cannot raise when every buy date has a bar in the series
and all closes are positive (no `IndexError`, `KeyError` or
`ZeroDivisionError`). -/
theorem buyLoop_ok_total (df : List Bar) (alloc : ℚ)
    (hclose : ∀ b ∈ df, 0 < b.Close) (ds : List Timestamp) :
    ∀ (cash : ℚ) (position : ℤ) (acc : List Order),
      (∀ d ∈ ds, ∃ b ∈ df, b.time.dateKey = d.dateKey) →
      ∃ out, buyLoop df alloc ds cash position acc = Except.ok out := by
  induction ds with
  | nil => intro cash position acc _; exact ⟨(cash, position, acc), rfl⟩
  | cons d ds ih =>
    intro cash position acc hds
    obtain ⟨b, hb, hbd⟩ := hds d (List.mem_cons_self d ds)
    have hb_day : b ∈ dayBars df d := by
      rw [dayBars, List.mem_filter]
      exact ⟨hb, by simpa using hbd⟩
    have hne : dayBars df d ≠ [] := by
      intro hnil; rw [hnil] at hb_day; simp at hb_day
    obtain ⟨lastBar, hlast⟩ :=
      Option.isSome_iff_exists.mp (List.getLast?_isSome.mpr hne)
    have hlb_df : lastBar ∈ df := List.mem_of_mem_filter (getLast?_mem hlast)
    obtain ⟨bar, hf⟩ : ∃ bar, df.find? (fun x => x.time == lastBar.time) = some bar := by
      cases hf : df.find? (fun x => x.time == lastBar.time) with
      | none =>
        rw [List.find?_eq_none] at hf
        exact absurd (by simp : (lastBar.time == lastBar.time) = true)
          (by simpa using hf lastBar hlb_df)
      | some bar => exact ⟨bar, rfl⟩
    have hpx : ¬ bar.Close = 0 :=
      ne_of_gt (hclose bar (List.mem_of_find?_eq_some hf))
    have hstep : buyLoop df alloc (d :: ds) cash position acc =
        if (⌊alloc / bar.Close⌋ : ℤ) ≤ 0 then
          buyLoop df alloc ds cash position acc
        else
          buyLoop df alloc ds (cash - (⌊alloc / bar.Close⌋ : ℚ) * bar.Close)
            (position + ⌊alloc / bar.Close⌋)
            (acc ++ [{ time := lastBar.time, side := Side.BUY,
                       qty := ⌊alloc / bar.Close⌋, price := bar.Close,
                       value := -((⌊alloc / bar.Close⌋ : ℚ) * bar.Close) }]) := by
      simp only [buyLoop, hlast, hf, if_neg hpx]
    rw [hstep]
    have hds' : ∀ d' ∈ ds, ∃ b ∈ df, b.time.dateKey = d'.dateKey :=
      fun d' hd' => hds d' (List.mem_cons_of_mem d hd')
    split
    · exact ih cash position acc hds'
    · exact ih _ _ _ hds'

/-- C4 (amended): on a series whose bars for the strategy year all lie in
January through November (positive closes, valid day-of-month),
`generate_orders` raises no exception and returns an order table with
no SELL orders — but possibly with BUY orders, so not necessarily
empty. -/
theorem generate_orders_nov_only_buys (df : List Bar) (cash : ℚ)
    (p : XmasParams)
    (hyear : ∃ b ∈ df, b.time.year = p.year)
    (hnov : ∀ b ∈ df, b.time.year = p.year → b.time.month ≤ 11)
    (hday : ∀ b ∈ df, b.time.day ≤ 31)
    (hclose : ∀ b ∈ df, 0 < b.Close) :
    ∃ orders, generate_orders df cash p = Except.ok orders ∧
      ∀ o ∈ orders, o.side = Side.BUY := by
  cases hcal : get_trading_days_around_date df ⟨p.year, 12, 25, 0⟩
      p.buy_days p.sell_days with
  | error e =>
    exfalso
    obtain ⟨b, hb, hby⟩ := hyear
    simp only [get_trading_days_around_date] at hcal
    split at hcal
    · rename_i hemp
      have hmem : b ∈ df.filter
          (fun x => x.time.year == (⟨p.year, 12, 25, 0⟩ : Timestamp).year) :=
        List.mem_filter.mpr ⟨hb, by simpa using hby⟩
      rw [List.isEmpty_iff.mp hemp] at hmem
      simp at hmem
    · exact absurd hcal (by simp)
  | ok pair =>
    obtain ⟨buy_dates, sell_dates⟩ := pair
    have hcal' := hcal
    simp only [get_trading_days_around_date] at hcal'
    split at hcal'
    · exact absurd hcal' (by simp)
    · rename_i hnotemp
      simp only [Except.ok.injEq, Prod.mk.injEq] at hcal'
      obtain ⟨hbuy_eq, hsell_eq⟩ := hcal'
      have hpost_nil : ((sortByKey Timestamp.key
          ((df.filter (fun x => x.time.year == (⟨p.year, 12, 25, 0⟩ : Timestamp).year)).map
            (fun x => x.time.normalizeDate))).dedup).filter
          (fun d => decide ((⟨p.year, 12, 25, 0⟩ : Timestamp).key < d.key)) = [] := by
        rw [List.filter_eq_nil_iff]
        intro d hd
        rw [List.mem_dedup, mem_sortByKey, List.mem_map] at hd
        obtain ⟨b, hbf, rfl⟩ := hd
        rw [List.mem_filter] at hbf
        have hyr : b.time.year = p.year := by simpa using hbf.2
        have hm := hnov b hbf.1 hyr
        have hd31 := hday b hbf.1
        simp only [Timestamp.normalizeDate, Timestamp.key, decide_eq_true_eq]
        simp only [not_lt]
        omega
      have hsell_nil : sell_dates = [] := by
        rw [← hsell_eq, hpost_nil]
        unfold pick_first_n
        split <;> simp
      have hds : ∀ d ∈ buy_dates, ∃ b ∈ df, b.time.dateKey = d.dateKey := by
        intro d hd
        rw [← hbuy_eq] at hd
        have hsub := pick_last_n_subset _ _ d hd
        rw [List.mem_filter] at hsub
        obtain ⟨hdd, -⟩ := hsub
        rw [List.mem_dedup, mem_sortByKey, List.mem_map] at hdd
        obtain ⟨b, hbf, rfl⟩ := hdd
        rw [List.mem_filter] at hbf
        exact ⟨b, hbf.1, rfl⟩
      obtain ⟨⟨c1, p1, out⟩, hbl⟩ := buyLoop_ok_total df
        (cash / (max buy_dates.length 1 : ℚ)) hclose buy_dates cash 0 [] hds
      refine ⟨sortByKey (fun o => o.time.key) out, ?_, ?_⟩
      · simp only [generate_orders, hcal, hbl, hsell_nil, sellLoop]
      · intro o ho
        rw [mem_sortByKey] at ho
        rcases buyLoop_ok_mem df _ buy_dates cash 0 [] c1 p1 out hbl o ho with
          hacc | ⟨hside, -⟩
        · simp at hacc
        · exact hside

/-- C4 witness: the amended statement applied to the November-only series
(the result there is the two BUY orders of `novDf`). -/
theorem generate_orders_nov_only_buys_witness :
    ∃ orders, generate_orders novDf 100 smallParams = Except.ok orders ∧
      ∀ o ∈ orders, o.side = Side.BUY :=
  generate_orders_nov_only_buys novDf 100 smallParams (by decide) (by decide)
    (by decide) (by norm_num [novDf, mkDailyBar])

/-- A bar timestamp on a midnight date strictly before a midnight anchor
is itself strictly before the anchor (time-of-day below one day). -/
theorem midnight_key_lt (ts d a : Timestamp) (h1 : ts.dateKey = d.dateKey)
    (h2 : d.minute = 0) (h3 : a.minute = 0) (h4 : d.key < a.key)
    (h5 : ts.minute < 1440) : ts.key < a.key := by
  simp only [Timestamp.key, Timestamp.dateKey] at *
  omega

/-- A bar timestamp on a midnight date strictly after a midnight anchor
is itself strictly after the anchor. -/
theorem midnight_key_gt (ts d a : Timestamp) (h1 : ts.dateKey = d.dateKey)
    (h2 : d.minute = 0) (h3 : a.minute = 0) (h4 : a.key < d.key) :
    a.key < ts.key := by
  simp only [Timestamp.key, Timestamp.dateKey] at *
  omega

/-- C8: in every order list produced by `generate_orders` (on a series
with well-formed times of day), every BUY is stamped strictly before
December 25 of the strategy year and every SELL strictly after. -/
theorem generate_orders_ladder_ordering (df : List Bar) (cash : ℚ)
    (p : XmasParams) (orders : List Order)
    (hmin : ∀ b ∈ df, b.time.minute < 1440)
    (hok : generate_orders df cash p = Except.ok orders) :
    ∀ o ∈ orders,
      (o.side = Side.BUY → o.time.key < Timestamp.key ⟨p.year, 12, 25, 0⟩) ∧
      (o.side = Side.SELL → Timestamp.key ⟨p.year, 12, 25, 0⟩ < o.time.key) := by
  simp only [generate_orders] at hok
  split at hok
  · exact absurd hok (by simp)
  · rename_i buy_dates sell_dates hcal
    split at hok
    · exact absurd hok (by simp)
    · rename_i c1 p1 orders1 hbl
      split at hok
      · exact absurd hok (by simp)
      · rename_i c2 p2 orders2 hsl
        simp only [Except.ok.injEq] at hok
        subst hok
        intro o ho
        rw [mem_sortByKey] at ho
        have hcalm := calendar_mem df ⟨p.year, 12, 25, 0⟩ p.buy_days
          p.sell_days buy_dates sell_dates hcal
        rcases sellLoop_ok_mem df p.sell_days p.sell_minute sell_dates 1 c1 p1
            orders1 c2 p2 orders2 hsl o ho with
          hacc | ⟨hsideS, d, hd, b, hb, hot, hbd⟩
        · rcases buyLoop_ok_mem df _ buy_dates cash 0 [] c1 p1 orders1 hbl o
              hacc with hnil | ⟨hsideB, d, hd, b, hb, hot, hbd⟩
          · simp at hnil
          · obtain ⟨hdmin, hdlt, -⟩ := hcalm.1 d hd
            constructor
            · intro hbuy
              rw [hot]
              exact midnight_key_lt b.time d _ hbd hdmin rfl hdlt (hmin b hb)
            · intro hsell
              rw [hsideB] at hsell
              exact absurd hsell (by simp)
        · obtain ⟨hdmin, hdgt, -⟩ := hcalm.2 d hd
          constructor
          · intro hbuy
            rw [hsideS] at hbuy
            exact absurd hbuy (by simp)
          · intro hsell
            rw [hot]
            exact midnight_key_gt b.time d _ hbd hdmin rfl hdgt

/-- C8 witness: the ordering at the concrete ladder run, applied to its
first generated order (the December 20 BUY). -/
theorem generate_orders_ladder_ordering_witness :
    (ladderFirst.side = Side.BUY →
      ladderFirst.time.key < Timestamp.key ⟨smallParams.year, 12, 25, 0⟩) ∧
    (ladderFirst.side = Side.SELL →
      Timestamp.key ⟨smallParams.year, 12, 25, 0⟩ < ladderFirst.time.key) :=
  generate_orders_ladder_ordering ladderDf 100 smallParams ladderOrders
    (by decide) generate_orders_ladder_eval ladderFirst
    (by simp [ladderOrders, ladderFirst])

theorem getLastD_max {α : Type} (key : α → Nat) (l : List α) (d : α)
    (hp : List.Pairwise (fun a b => key a < key b) l) :
    ∀ x ∈ l, key x ≤ key (l.getLastD d) := by
  induction l generalizing d with
  | nil => simp
  | cons a t ih =>
    intro x hx
    rw [List.pairwise_cons] at hp
    cases t with
    | nil =>
      rw [List.mem_singleton] at hx
      subst hx
      simp [List.getLastD]
    | cons b u =>
      rw [List.getLastD_cons]
      rcases List.mem_cons.mp hx with rfl | hx'
      · exact le_of_lt (hp.1 _ (getLastD_mem (b :: u) x (by simp)))
      · exact ih a hp.2 x hx'

theorem head?_min {α : Type} (key : α → Nat) (l : List α) (b : α)
    (hp : List.Pairwise (fun a c => key a < key c) l)
    (hb : l.head? = some b) : ∀ x ∈ l, key b ≤ key x := by
  cases l with
  | nil => simp at hb
  | cons a t =>
    simp only [List.head?_cons, Option.some.injEq] at hb
    subst hb
    intro x hx
    rcases List.mem_cons.mp hx with rfl | hx'
    · exact le_refl _
    · exact le_of_lt (List.rel_of_pairwise_cons hp hx')

/-- C9: on a chronologically sorted series, the Execution-Bar Locator
errors exactly when the target date has no bars; otherwise it returns a
bar of that day, which is the day's single bar when only one exists,
else the first bar at or after the date+time-of-day target, else (when
every day bar is before the target) the last bar of the day. -/
theorem find_execution_bar_spec (df : List Bar) (t : Timestamp) (m : Nat)
    (hs : List.Pairwise (fun a b : Bar => a.time.key < b.time.key) df) :
    ((∃ e, find_execution_bar df t m = Except.error e) ↔ dayBars df t = []) ∧
    (∀ ts, find_execution_bar df t m = Except.ok ts →
      (∃ b ∈ dayBars df t, b.time = ts) ∧
      (∀ b, dayBars df t = [b] → ts = b.time) ∧
      (1 < (dayBars df t).length →
        ((∃ b ∈ dayBars df t, (mkDayTime t m).key ≤ b.time.key) →
          (mkDayTime t m).key ≤ ts.key ∧
          ∀ b ∈ dayBars df t, (mkDayTime t m).key ≤ b.time.key →
            ts.key ≤ b.time.key) ∧
        ((∀ b ∈ dayBars df t, b.time.key < (mkDayTime t m).key) →
          ∀ b ∈ dayBars df t, b.time.key ≤ ts.key))) := by
  have hpd : List.Pairwise (fun a b : Bar => a.time.key < b.time.key)
      (dayBars df t) := List.Pairwise.sublist (List.filter_sublist df) hs
  constructor
  · constructor
    · rintro ⟨e, he⟩
      simp only [find_execution_bar] at he
      split at he
      · rename_i heq
        exact List.head?_eq_none_iff.mp heq
      · split at he
        · exact absurd he (by simp)
        · split at he
          · exact absurd he (by simp)
          · exact absurd he (by simp)
    · intro hnil
      exact ⟨"No bars on date", by simp [find_execution_bar, hnil]⟩
  · intro ts hok
    refine ⟨find_execution_bar_ok_mem df t m ts hok, ?_, ?_⟩
    · intro b hday
      simp [find_execution_bar, hday] at hok
      exact hok.symm
    · intro hlen
      constructor
      · rintro ⟨bafter, hbafter, hble⟩
        simp only [find_execution_bar] at hok
        split at hok
        · rename_i heq
          rw [List.head?_eq_none_iff] at heq
          rw [heq] at hlen
          simp at hlen
        · rename_i b0 hb0
          split at hok
          · rename_i hlen1
            exact absurd hlen1 (by omega)
          · split at hok
            · rename_i bfirst hfirst
              simp only [Except.ok.injEq] at hok
              subst hok
              have hmemf : bfirst ∈ (dayBars df t).filter
                  (fun b => decide ((mkDayTime t m).key ≤ b.time.key)) :=
                List.mem_of_mem_head? (by rw [hfirst]; rfl)
              have hfsorted : List.Pairwise
                  (fun a b : Bar => a.time.key < b.time.key)
                  ((dayBars df t).filter
                    (fun b => decide ((mkDayTime t m).key ≤ b.time.key))) :=
                List.Pairwise.sublist (List.filter_sublist _) hpd
              constructor
              · have := (List.mem_filter.mp hmemf).2
                simpa using this
              · intro b hb hble2
                have hbf : b ∈ (dayBars df t).filter
                    (fun b => decide ((mkDayTime t m).key ≤ b.time.key)) :=
                  List.mem_filter.mpr ⟨hb, by simpa using hble2⟩
                exact head?_min (fun x : Bar => x.time.key) _ bfirst hfsorted
                  hfirst b hbf
            · rename_i hnone
              exfalso
              rw [List.head?_eq_none_iff, List.filter_eq_nil_iff] at hnone
              exact hnone bafter hbafter (by simpa using hble)
      · intro hallbefore
        simp only [find_execution_bar] at hok
        split at hok
        · rename_i heq
          rw [List.head?_eq_none_iff] at heq
          rw [heq] at hlen
          simp at hlen
        · rename_i b0 hb0
          split at hok
          · rename_i hlen1
            exact absurd hlen1 (by omega)
          · split at hok
            · rename_i bfirst hfirst
              exfalso
              have hmemf : bfirst ∈ (dayBars df t).filter
                  (fun b => decide ((mkDayTime t m).key ≤ b.time.key)) :=
                List.mem_of_mem_head? (by rw [hfirst]; rfl)
              have h1 := (List.mem_filter.mp hmemf).1
              have h2 := (List.mem_filter.mp hmemf).2
              have h3 := hallbefore bfirst h1
              simp only [decide_eq_true_eq] at h2
              omega
            · simp only [Except.ok.injEq] at hok
              subst hok
              intro b hb
              exact getLastD_max (fun x : Bar => x.time.key) (dayBars df t)
                b0 hpd b hb

/-- C9 witness: on the two-bar December 20 day of `decMarket`, the locator
asked for 10:30 returns the 16:00 bar, a bar of that day. -/
theorem find_execution_bar_spec_witness :
    ∃ b ∈ dayBars decMarket ⟨2023, 12, 20, 0⟩,
      b.time = (⟨2023, 12, 20, 960⟩ : Timestamp) :=
  ((find_execution_bar_spec decMarket ⟨2023, 12, 20, 0⟩ 630 (by decide)).2
    ⟨2023, 12, 20, 960⟩ (by rfl)).1

end Trading
